import Mathlib

set_option maxRecDepth 4000

/-!
Verification development for the Music-Crossword repository.

Shallow embedding of the puzzle-generation retry loop
(src/generate_crosswords.js), the pitch encoder/decoder
(src/music-crossword-ui/src/lib/utils/pitchMapping.ts and normalizePitch),
the puzzle-load reconciliation and enrichment
(src/music-crossword-ui/src/routes/api/puzzles/[id]/+server.ts),
the client-side validation and grid-state model
(src/music-crossword-ui/src/lib/utils/validation.ts and the userInput store),
the audio busy-flag model (AudioPlayer component and stores/audio.ts),
and the motif create/update operations (database utilities).
-/

namespace MusicCrossword

/-! Retry loop of generateCrossword (src/generate_crosswords.js, lines 199-219).

    for (let wordCount = numWords;
         wordCount >= Math.max(5, numWords - 3) && !layoutResult;
         wordCount--) { try layoutResult = generateLayout(...) catch continue }

    The layout engine is an opaque collaborator; we model one attempt at a
    given word count as `gen : Nat -> Option LayoutT` (`none` covers both a
    thrown exception and a falsy/usable-grid-less result, after which the
    loop continues). -/

/-- List of word counts the loop attempts, in order: numWords, numWords-1,
... down to Math.max(5, numWords - 3); empty when numWords is below that
floor. -/
def attemptCounts (numWords : Nat) : List Nat :=
  (List.range (numWords + 1 - max 5 (numWords - 3))).map (fun i => numWords - i)

/-- First successful layout attempt over a list of word counts, mirroring
the loop body: a success breaks out, a failure moves to the next count. -/
def firstLayoutSuccess {LayoutT : Type} (gen : Nat → Option LayoutT) :
    List Nat → Option LayoutT
  | [] => none
  | c :: cs =>
    match gen c with
    | some r => some r
    | none => firstLayoutSuccess gen cs

/-- The retry portion of generateCrossword: returns the first usable layout
found while decrementing the word count, `none` (the JS function returns
null) once all attempted counts fail. -/
def generateCrossword {LayoutT : Type} (gen : Nat → Option LayoutT)
    (numWords : Nat) : Option LayoutT :=
  firstLayoutSuccess gen (attemptCounts numWords)

theorem firstLayoutSuccess_eq_none {LayoutT : Type} (gen : Nat → Option LayoutT)
    (l : List Nat) (h : ∀ c ∈ l, gen c = none) :
    firstLayoutSuccess gen l = none := by
  induction l with
  | nil => rfl
  | cons c cs ih =>
    have hc : gen c = none := h c (List.mem_cons_self c cs)
    simp only [firstLayoutSuccess, hc]
    exact ih (fun d hd => h d (List.mem_cons_of_mem c hd))

theorem mem_attemptCounts {numWords c : Nat} (h : c ∈ attemptCounts numWords) :
    max 5 (numWords - 3) ≤ c ∧ c ≤ numWords := by
  simp only [attemptCounts, List.mem_map, List.mem_range] at h
  obtain ⟨i, hi, rfl⟩ := h
  omega

theorem attemptCounts_length (numWords : Nat) :
    (attemptCounts numWords).length ≤ 4 := by
  simp only [attemptCounts, List.length_map, List.length_range]
  omega

theorem attemptCounts_get (numWords i : Nat)
    (h : i < (attemptCounts numWords).length) :
    (attemptCounts numWords).get ⟨i, h⟩ = numWords - i := by
  simp [attemptCounts]

theorem attemptCounts_eq_nil {numWords : Nat} (h : numWords < 5) :
    attemptCounts numWords = [] := by
  simp only [attemptCounts, List.map_eq_nil_iff, List.range_eq_nil]
  omega

/-- C1 counterexample: with a target of 10 words and a layout oracle that
succeeds exactly at word count 5, generateCrossword still fails, because
the loop's floor is Math.max(5, numWords - 3) = 7: word counts 6 and 5 are
never attempted, so the 5-word floor of the claim is not what the code
exhausts before giving up. -/
theorem generateCrossword_stops_above_five :
    generateCrossword (fun c => if c = 5 then some 0 else none) 10 = none ∧
    5 ∉ attemptCounts 10 ∧
    attemptCounts 10 = [10, 9, 8, 7] := by
  decide

/-- C1 amended: the retry loop decrements the word count by one on each
failed attempt, from numWords down to the floor Math.max(5, numWords - 3)
(never below 5 and at most 4 attempts, hence bounded); it fails once every
attempted count fails; and a call whose target is below the 5-word floor
fails immediately, its attempt list being empty (so the layout engine is
never consulted). -/
theorem generateCrossword_retry_policy {LayoutT : Type}
    (gen : Nat → Option LayoutT) (numWords : Nat) :
    (∀ c ∈ attemptCounts numWords, 5 ≤ c ∧ max 5 (numWords - 3) ≤ c ∧ c ≤ numWords) ∧
    (attemptCounts numWords).length ≤ 4 ∧
    (∀ i : Nat, ∀ h : i < (attemptCounts numWords).length,
      (attemptCounts numWords).get ⟨i, h⟩ = numWords - i) ∧
    ((∀ c ∈ attemptCounts numWords, gen c = none) →
      generateCrossword gen numWords = none) ∧
    (numWords < 5 →
      attemptCounts numWords = [] ∧ generateCrossword gen numWords = none) := by
  refine ⟨?_, attemptCounts_length numWords, ?_, ?_, ?_⟩
  · intro c hc
    have := mem_attemptCounts hc
    omega
  · intro i h
    exact attemptCounts_get numWords i h
  · intro h
    exact firstLayoutSuccess_eq_none gen _ h
  · intro h
    refine ⟨attemptCounts_eq_nil h, ?_⟩
    simp [generateCrossword, attemptCounts_eq_nil h, firstLayoutSuccess]

/-- Witness for the amended C1 theorem at numWords = 4 with an
always-failing layout oracle: the call fails with no attempt made. -/
theorem generateCrossword_retry_policy_witness :
    attemptCounts 4 = [] ∧
    generateCrossword (fun _ => (none : Option Nat)) 4 = none :=
  (generateCrossword_retry_policy (fun _ => (none : Option Nat)) 4).2.2.2.2
    (by decide)

/-! Pitch encoder/decoder
(src/music-crossword-ui/src/lib/utils/pitchMapping.ts). -/

/-- The PITCH_MAP object: musical-note spelling to grid letter, in source
order (sharp and flat spellings of the same pitch class share a letter). -/
def PITCH_MAP : List (String × String) :=
  [("C", "C"), ("C#", "D"), ("Db", "D"), ("D", "E"), ("D#", "F"),
   ("Eb", "F"), ("E", "G"), ("F", "H"), ("F#", "I"), ("Gb", "I"),
   ("G", "J"), ("G#", "K"), ("Ab", "K"), ("A", "L"), ("A#", "M"),
   ("Bb", "M"), ("B", "N")]

/-- The REVERSE_PITCH_MAP object: grid letter back to the (sharp-preference)
musical-note spelling. -/
def REVERSE_PITCH_MAP : List (String × String) :=
  [("C", "C"), ("D", "C#"), ("E", "D"), ("F", "D#"), ("G", "E"),
   ("H", "F"), ("I", "F#"), ("J", "G"), ("K", "G#"), ("L", "A"),
   ("M", "A#"), ("N", "B")]

/-- The CHROMATIC_NOTES constant: the 12 pitch classes in canonical
sharp-preference spelling, in chromatic order. -/
def CHROMATIC_NOTES : List String :=
  ["C", "C#", "D"] ++ ["D#", "E", "F"] ++ ["F#", "G", "G#"] ++ ["A", "A#", "B"]

/-- Semitone values of the pitch-class spellings, as written in
calculateIntervalProfile in the database utilities. -/
def semitoneMap : List (String × Nat) :=
  [("C", 0), ("C#", 1), ("Db", 1), ("D", 2), ("D#", 3), ("Eb", 3),
   ("E", 4), ("F", 5), ("F#", 6), ("Gb", 6), ("G", 7), ("G#", 8),
   ("Ab", 8), ("A", 9), ("A#", 10), ("Bb", 10), ("B", 11)]

/-- Encoding lookup: PITCH_MAP[p], `none` when p is outside the 17-spelling
domain (the fallback heuristics of noteToLetter/normalizePitch are outside
the bijection claim). -/
def encodePitch (p : String) : Option String :=
  PITCH_MAP.lookup p

/-- Decoding lookup: REVERSE_PITCH_MAP[s]. -/
def decodeSymbol (s : String) : Option String :=
  REVERSE_PITCH_MAP.lookup s

/-- Canonical sharp-preference spelling of a spelling's pitch class: the
CHROMATIC_NOTES entry at the spelling's semitone value. -/
def canonicalSpelling (p : String) : Option String :=
  (semitoneMap.lookup p).bind (fun i => CHROMATIC_NOTES.get? i)

/-- The 12-symbol grid alphabet (the keys of REVERSE_PITCH_MAP). -/
def gridSymbols : List String :=
  REVERSE_PITCH_MAP.map Prod.fst

/-- The encoder's 17-spelling domain (the keys of PITCH_MAP). -/
def pitchSpellings : List String :=
  PITCH_MAP.map Prod.fst

/-- C2: the encoder/decoder pair is a bijection between the 12 pitch
classes and the 12 grid symbols: decoding then encoding any grid symbol
gives the symbol back, and encoding then decoding any spelling in the
encoder's domain (flat spellings included) gives the canonical
sharp-preference spelling of its pitch class. -/
theorem pitch_encoding_bijection :
    (∀ s ∈ gridSymbols, (decodeSymbol s).bind encodePitch = some s) ∧
    (∀ p ∈ pitchSpellings, (encodePitch p).bind decodeSymbol = canonicalSpelling p) := by
  constructor
  · intro s hs
    fin_cases hs <;> rfl
  · intro p hp
    fin_cases hp <;> rfl

/-- Witness for C2 at the grid symbol "D" and the flat spelling "Db":
encode(decode("D")) = "D" and decode(encode("Db")) = "C#". -/
theorem pitch_encoding_bijection_witness :
    (decodeSymbol "D").bind encodePitch = some "D" ∧
    (encodePitch "Db").bind decodeSymbol = canonicalSpelling "Db" :=
  ⟨pitch_encoding_bijection.1 "D" (by decide),
   pitch_encoding_bijection.2 "Db" (by decide)⟩

/-! Data model (src/unnamed/part_007, the TypeScript type definitions),
with a JavaScript value model for grid cells: a cell read can yield a
string, null, or undefined (an out-of-bounds array access), which is how
the validation code degrades instead of throwing. -/

/-- Result of reading a grid cell in JavaScript: a stored string, a stored
null, or undefined for a missing index. -/
inductive JsVal where
  | undef
  | jsNull
  | str (s : String)
deriving DecidableEq, Repr

/-- JavaScript array indexing: `l[i]` is undefined (`none`) outside
`0 ≤ i < l.length`. -/
def jsIndex {α : Type} (l : List α) (i : Int) : Option α :=
  if h : 0 ≤ i ∧ i.toNat < l.length then some (l.get ⟨i.toNat, h.2⟩) else none

/-- The GridState: a 2-D array of cells, each string or null. -/
abbrev Grid := List (List JsVal)

/-- The value of `grid[y][x]` under JavaScript semantics. -/
def cellAt (grid : Grid) (y x : Int) : JsVal :=
  match jsIndex grid y with
  | none => JsVal.undef
  | some row =>
    match jsIndex row x with
    | none => JsVal.undef
    | some v => v

/-- Whether an actual cell is stored at `grid[y][x]`. -/
def cellExists (grid : Grid) (y x : Int) : Bool :=
  match jsIndex grid y with
  | none => false
  | some row => (jsIndex row x).isSome

inductive Orientation where
  | across
  | down
deriving DecidableEq, Repr

/-- The canonical 0-based position carried by a reconciled Entry. -/
structure Pos where
  x : Int
  y : Int
deriving DecidableEq, Repr

/-- The Motif record (interface Motif in the type definitions, plus the
checksum column the motifs table also stores — the UI reads omit it but
createMotif/updateMotif write it). -/
structure Motif where
  id : Int
  pitch_sequence : String
  rhythm_sequence : Option String
  interval_profile : String
  length : Nat
  first_pitch : String
  last_pitch : String
  difficulty : Int
  descriptor : Option String
  source_id : Int
  recognition_score : Int
  checksum : String
deriving DecidableEq, Repr

/-- A reconciled Clue/Entry as consumed by the validation code: canonical
position plus an optional enriched motif attachment. -/
structure Clue where
  clue : String
  answer : String
  position : Pos
  orientation : Orientation
  motif_id : Int
  motif : Option Motif
deriving DecidableEq, Repr

/-! Validation functions
(src/music-crossword-ui/src/lib/utils/validation.ts). -/

/-- Loop body of isWordCorrect: walk the remaining answer characters from
the current (x, y), with the source's bounds check against grid.length and
grid[0].length, row-existence check, and strict cell comparison. -/
def wordCorrectAux (grid : Grid) (o : Orientation) :
    List Char → Int → Int → Bool
  | [], _, _ => true
  | ch :: rest, x, y =>
    if (grid.length : Int) ≤ y ∨ (((grid.headD []).length : Int)) ≤ x then false
    else
      match jsIndex grid y with
      | none => false
      | some _ =>
        if cellAt grid y x ≠ JsVal.str (String.singleton ch) then false
        else
          match o with
          | Orientation.across => wordCorrectAux grid o rest (x + 1) y
          | Orientation.down => wordCorrectAux grid o rest x (y + 1)

/-- isWordCorrect: true iff the whole walk matches the encoded answer; the
initial guard returns false on an uninitialized/empty grid. -/
def isWordCorrect (c : Clue) (grid : Grid) : Bool :=
  if grid.length = 0 then false
  else wordCorrectAux grid c.orientation c.answer.toList c.position.x c.position.y

/-- Loop body of isWordFilled: like the correctness walk but a cell only
fails when it is strictly null or the empty string. -/
def wordFilledAux (grid : Grid) (o : Orientation) :
    List Char → Int → Int → Bool
  | [], _, _ => true
  | _ :: rest, x, y =>
    if (grid.length : Int) ≤ y ∨ (((grid.headD []).length : Int)) ≤ x then false
    else
      match jsIndex grid y with
      | none => false
      | some _ =>
        if cellAt grid y x = JsVal.jsNull ∨ cellAt grid y x = JsVal.str "" then false
        else
          match o with
          | Orientation.across => wordFilledAux grid o rest (x + 1) y
          | Orientation.down => wordFilledAux grid o rest x (y + 1)

/-- isWordFilled with the same initial guard as isWordCorrect. -/
def isWordFilled (c : Clue) (grid : Grid) : Bool :=
  if grid.length = 0 then false
  else wordFilledAux grid c.orientation c.answer.toList c.position.x c.position.y

/-- validateGrid: the ValidationState map (Map of clue index to boolean),
modelled as the association list built in insertion order; an entry gets
isWordCorrect when filled and false otherwise, and an uninitialized grid
maps every index to false. -/
def validateGrid (clues : List Clue) (grid : Grid) : List (Nat × Bool) :=
  if grid.length = 0 then
    clues.enum.map (fun ic => (ic.1, false))
  else
    clues.enum.map
      (fun ic => (ic.1, if isWordFilled ic.2 grid then isWordCorrect ic.2 grid else false))

/-- getCompletionPercentage: Math.round((correct / total) * 100), modelled
as exact rational rounding (floor of the value plus one half), with the
source's guard returning 0 for an empty clue list. -/
def getCompletionPercentage (clues : List Clue) (grid : Grid) : Nat :=
  if clues.length = 0 then 0
  else
    ((200 * ((validateGrid clues grid).map Prod.snd).count true + clues.length) /
      (2 * clues.length))

/-- The sequence of cell coordinates (x, y) a clue of the given length
walks from a start position (the source steps x for across, y for down). -/
def pathPositions (o : Orientation) : Nat → Int → Int → List (Int × Int)
  | 0, _, _ => []
  | n + 1, x, y =>
    (x, y) ::
      match o with
      | Orientation.across => pathPositions o n (x + 1) y
      | Orientation.down => pathPositions o n x (y + 1)

/-- The cell path of a clue (getClueCells walks the same coordinates). -/
def cluePath (c : Clue) : List (Int × Int) :=
  pathPositions c.orientation c.answer.length c.position.x c.position.y

/-- A clue's cell path can be fully walked in a grid: every path position
addresses a cell that actually exists. -/
def PathInGrid (c : Clue) (grid : Grid) : Prop :=
  ∀ p ∈ cluePath c, cellExists grid p.2 p.1 = true

instance (c : Clue) (grid : Grid) : Decidable (PathInGrid c grid) := by
  unfold PathInGrid
  infer_instance

theorem lookup_enumFrom_map {β : Type} (g : Clue → β) :
    ∀ (l : List Clue) (s idx : Nat) (h : idx < l.length),
      ((List.enumFrom s l).map (fun ic => (ic.1, g ic.2))).lookup (s + idx) =
        some (g (l.get ⟨idx, h⟩)) := by
  intro l
  induction l with
  | nil =>
    intro s idx h
    exact absurd h (Nat.not_lt_zero idx)
  | cons a t ih =>
    intro s idx h
    cases idx with
    | zero =>
      simp [List.enumFrom, List.lookup]
    | succ j =>
      have hne : ((s + (j + 1) == s) = false) := by
        rw [beq_eq_false_iff_ne]
        omega
      have hrec := ih (s + 1) j (Nat.lt_of_succ_lt_succ h)
      have harith : s + 1 + j = s + (j + 1) := by omega
      rw [harith] at hrec
      simpa [List.enumFrom, List.lookup, hne] using hrec

theorem validateGrid_lookup (clues : List Clue) (grid : Grid) (idx : Nat)
    (h : idx < clues.length) :
    (validateGrid clues grid).lookup idx =
      some (if grid.length = 0 then false
            else if isWordFilled (clues.get ⟨idx, h⟩) grid then
              isWordCorrect (clues.get ⟨idx, h⟩) grid
            else false) := by
  unfold validateGrid
  by_cases hg : grid.length = 0
  · have := lookup_enumFrom_map (fun _ => false) clues 0 idx h
    simpa [hg, List.enum] using this
  · have := lookup_enumFrom_map
      (fun c => if isWordFilled c grid then isWordCorrect c grid else false)
      clues 0 idx h
    simpa [hg, List.enum] using this

theorem cellAt_undef_of_missing {grid : Grid} {y x : Int}
    (h : cellExists grid y x = false) : cellAt grid y x = JsVal.undef := by
  unfold cellExists at h
  unfold cellAt
  cases hjy : jsIndex grid y with
  | none => rfl
  | some row =>
    rw [hjy] at h
    cases hjx : jsIndex row x with
    | none => simp [hjx]
    | some v => simp [hjx] at h

theorem wordCorrectAux_cons (grid : Grid) (o : Orientation) (ch : Char)
    (rest : List Char) (x y : Int) :
    wordCorrectAux grid o (ch :: rest) x y =
      if (grid.length : Int) ≤ y ∨ (((grid.headD []).length : Int)) ≤ x then false
      else
        match jsIndex grid y with
        | none => false
        | some _ =>
          if cellAt grid y x ≠ JsVal.str (String.singleton ch) then false
          else
            match o with
            | Orientation.across => wordCorrectAux grid o rest (x + 1) y
            | Orientation.down => wordCorrectAux grid o rest x (y + 1) := by
  rfl

theorem wordCorrectAux_missing (grid : Grid) (o : Orientation) :
    ∀ (chars : List Char) (x y : Int),
      (∃ p ∈ pathPositions o chars.length x y, cellExists grid p.2 p.1 = false) →
      wordCorrectAux grid o chars x y = false := by
  intro chars
  induction chars with
  | nil =>
    intro x y h
    simp [pathPositions] at h
  | cons ch rest ih =>
    intro x y h
    obtain ⟨p, hp, hmiss⟩ := h
    rw [wordCorrectAux_cons]
    by_cases hb : (grid.length : Int) ≤ y ∨ (((grid.headD []).length : Int)) ≤ x
    · rw [if_pos hb]
    · rw [if_neg hb]
      cases hjy : jsIndex grid y with
      | none => rfl
      | some row =>
        by_cases hc : cellAt grid y x ≠ JsVal.str (String.singleton ch)
        · simp [hc]
        · push_neg at hc
          have hcellex : cellExists grid y x = true := by
            by_contra hfalse
            have hundef : cellAt grid y x = JsVal.undef :=
              cellAt_undef_of_missing (by simpa using hfalse)
            rw [hc] at hundef
            cases hundef
          cases o with
          | across =>
            have hp' :
                p ∈ (x, y) :: pathPositions Orientation.across rest.length (x + 1) y := by
              simpa [pathPositions] using hp
            rcases List.mem_cons.mp hp' with hfst | htail
            · rw [hfst] at hmiss
              simp only at hmiss
              rw [hmiss] at hcellex
              cases hcellex
            · have hrec := ih (x + 1) y ⟨p, htail, hmiss⟩
              simp [hc, hrec]
          | down =>
            have hp' :
                p ∈ (x, y) :: pathPositions Orientation.down rest.length x (y + 1) := by
              simpa [pathPositions] using hp
            rcases List.mem_cons.mp hp' with hfst | htail
            · rw [hfst] at hmiss
              simp only at hmiss
              rw [hmiss] at hcellex
              cases hcellex
            · have hrec := ih x (y + 1) ⟨p, htail, hmiss⟩
              simp [hc, hrec]

theorem isWordCorrect_of_broken_path (c : Clue) (grid : Grid)
    (h : ¬ PathInGrid c grid) : isWordCorrect c grid = false := by
  unfold isWordCorrect
  by_cases hg : grid.length = 0
  · simp [hg]
  · simp only [hg, if_false]
    apply wordCorrectAux_missing
    unfold PathInGrid at h
    push_neg at h
    obtain ⟨p, hp, hne⟩ := h
    exact ⟨p, hp, by simpa using hne⟩

/-- C5: the validation functions are total over the JavaScript value model
(out-of-bounds reads yield undefined, never an exception) and degrade to
false for malformed data: they return false on an uninitialized/empty
grid, validateGrid maps every clue of an empty grid to false, and any
entry whose cell path cannot be fully walked in the grid (missing rows,
grids too small, out-of-range positions) is reported not-correct rather
than erroring. -/
theorem validation_never_throws (c : Clue) (clues : List Clue) (grid : Grid)
    (idx : Nat) :
    (isWordCorrect c [] = false ∧ isWordFilled c [] = false) ∧
    (idx < clues.length → (validateGrid clues []).lookup idx = some false) ∧
    (¬ PathInGrid c grid → isWordCorrect c grid = false) ∧
    (∀ h : idx < clues.length, ¬ PathInGrid (clues.get ⟨idx, h⟩) grid →
      (validateGrid clues grid).lookup idx = some false) := by
  refine ⟨⟨by simp [isWordCorrect], by simp [isWordFilled]⟩, ?_, ?_, ?_⟩
  · intro h
    simpa using validateGrid_lookup clues [] idx h
  · exact isWordCorrect_of_broken_path c grid
  · intro h hpath
    rw [validateGrid_lookup clues grid idx h]
    by_cases hg : grid.length = 0
    · simp [hg]
    · have hcorr := isWordCorrect_of_broken_path _ grid hpath
      simp only [List.get_eq_getElem] at hcorr
      simp [hg, hcorr]

/-- Witness for C5: a one-cell grid and an entry whose 1-cell path starts
at the out-of-range position (5, 5); the entry validates to not-correct
instead of erroring. -/
theorem validation_never_throws_witness :
    isWordCorrect
        { clue := "w", answer := "J", position := { x := 5, y := 5 },
          orientation := Orientation.across, motif_id := 1, motif := none }
        [[JsVal.jsNull]] = false :=
  (validation_never_throws
      { clue := "w", answer := "J", position := { x := 5, y := 5 },
        orientation := Orientation.across, motif_id := 1, motif := none }
      [] [[JsVal.jsNull]] 0).2.2.1 (by decide)

/-- Concrete entry that is completely filled in the C4 grid but wrong. -/
def c4FilledWrongClue : Clue :=
  { clue := "a", answer := "J", position := { x := 0, y := 0 },
    orientation := Orientation.across, motif_id := 1, motif := none }

/-- Concrete entry that is not yet completely filled in the C4 grid. -/
def c4UnfilledClue : Clue :=
  { clue := "b", answer := "NN", position := { x := 0, y := 0 },
    orientation := Orientation.across, motif_id := 2, motif := none }

/-- Concrete grid for the C4 counterexample: one row, cell (0,0) holds the
wrong symbol "K", cell (1,0) is still null. -/
def c4Grid : Grid := [[JsVal.str "K", JsVal.jsNull]]

/-- C4 counterexample: validateGrid gives the not-yet-filled entry and the
filled-but-wrong entry the very same verdict, false; the validation pass
is boolean per entry, so an unfilled entry is not reported with a verdict
distinct from a filled-but-wrong one. -/
theorem validateGrid_not_tristate :
    (validateGrid [c4FilledWrongClue, c4UnfilledClue] c4Grid).lookup 0 = some false ∧
    (validateGrid [c4FilledWrongClue, c4UnfilledClue] c4Grid).lookup 1 = some false ∧
    isWordFilled c4FilledWrongClue c4Grid = true ∧
    isWordCorrect c4FilledWrongClue c4Grid = false ∧
    isWordFilled c4UnfilledClue c4Grid = false := by
  decide

/-- C4 amended: per-entry validation is boolean, not tri-state: for every
entry and grid state, validateGrid reports exactly
isWordFilled && isWordCorrect, so a not-yet-filled entry receives the
verdict false — the same verdict as a filled-but-wrong entry; the
unfilled/filled distinction is recoverable only by consulting isWordFilled
separately. -/
theorem validateGrid_boolean_verdict (clues : List Clue) (grid : Grid)
    (idx : Nat) (h : idx < clues.length) :
    (validateGrid clues grid).lookup idx =
      some (isWordFilled (clues.get ⟨idx, h⟩) grid &&
            isWordCorrect (clues.get ⟨idx, h⟩) grid) ∧
    (isWordFilled (clues.get ⟨idx, h⟩) grid = false →
      (validateGrid clues grid).lookup idx = some false) := by
  have hl := validateGrid_lookup clues grid idx h
  have hval :
      (if grid.length = 0 then false
       else if isWordFilled (clues.get ⟨idx, h⟩) grid then
         isWordCorrect (clues.get ⟨idx, h⟩) grid
       else false) =
        (isWordFilled (clues.get ⟨idx, h⟩) grid &&
          isWordCorrect (clues.get ⟨idx, h⟩) grid) := by
    by_cases hg : grid.length = 0
    · have hf : isWordFilled (clues.get ⟨idx, h⟩) grid = false := by
        simp [isWordFilled, hg]
      simp only [List.get_eq_getElem] at hf
      simp [hg, hf]
    · cases hfil : isWordFilled (clues.get ⟨idx, h⟩) grid <;> simp [hg, hfil]
  refine ⟨by rw [hl, hval], ?_⟩
  intro hf
  rw [hl, hval, hf]
  simp

/-- Witness for the amended C4 theorem on the concrete counterexample
grid, at the unfilled entry (index 1). -/
theorem validateGrid_boolean_verdict_witness :
    (validateGrid [c4FilledWrongClue, c4UnfilledClue] c4Grid).lookup 1 =
      some (isWordFilled c4UnfilledClue c4Grid &&
            isWordCorrect c4UnfilledClue c4Grid) :=
  (validateGrid_boolean_verdict [c4FilledWrongClue, c4UnfilledClue] c4Grid 1
    (by decide)).1

/-! Grid mutation (src/unnamed/part_005, the userInput store). -/

/-- JavaScript array element assignment row[x] = v: an in-bounds write
replaces the element, an out-of-bounds write extends the array, the gap
holding undefined. -/
def setCellList (row : List JsVal) (x : Nat) (v : JsVal) : List JsVal :=
  if x < row.length then row.set x v
  else row ++ List.replicate (x - row.length) JsVal.undef ++ [v]

/-- setCellValue: copy the grid and assign newGrid[row][col] = value. (The
source throws a TypeError when the row index itself is out of bounds; the
claims below only exercise in-bounds rows, where List.set is exact.) -/
def setCellValue (grid : Grid) (row col : Nat) (v : JsVal) : Grid :=
  grid.set row (setCellList (grid.getD row []) col v)

/-- clearCell: setCellValue with null. -/
def clearCell (grid : Grid) (row col : Nat) : Grid :=
  setCellValue grid row col JsVal.jsNull

theorem jsIndex_eq_getElem? {α : Type} (l : List α) (i : Int) :
    jsIndex l i = if 0 ≤ i then l[i.toNat]? else none := by
  unfold jsIndex
  by_cases h0 : 0 ≤ i
  · by_cases hlt : i.toNat < l.length
    · rw [dif_pos ⟨h0, hlt⟩, if_pos h0, List.getElem?_eq_getElem hlt]
      simp
    · rw [dif_neg (by omega), if_pos h0, List.getElem?_eq_none (by omega)]
  · rw [dif_neg (by omega), if_neg h0]

theorem jsIndex_none_iff {α : Type} (l : List α) (i : Int) :
    jsIndex l i = none ↔ ¬(0 ≤ i ∧ i.toNat < l.length) := by
  unfold jsIndex
  split
  · simp_all
  · simp_all

theorem setCellValue_length (grid : Grid) (row col : Nat) (v : JsVal) :
    (setCellValue grid row col v).length = grid.length := by
  simp [setCellValue]

theorem setCellList_length (row : List JsVal) (col : Nat) (v : JsVal)
    (h : col < row.length) : (setCellList row col v).length = row.length := by
  simp [setCellList, h]

theorem headD_length_setCellValue (grid : Grid) (row col : Nat) (v : JsVal)
    (hrow : row < grid.length) (hcol : col < (grid.getD row []).length) :
    ((setCellValue grid row col v).headD []).length = (grid.headD []).length := by
  cases grid with
  | nil => simp at hrow
  | cons r0 rest =>
    cases row with
    | zero =>
      have hgetD0 : (r0 :: rest).getD 0 [] = r0 := by
        simp [List.getD_eq_getElem?_getD]
      rw [hgetD0] at hcol
      simp only [setCellValue, hgetD0, List.set_cons_zero, List.headD_cons]
      exact setCellList_length _ _ _ hcol
    | succ n =>
      simp only [setCellValue, List.set_cons_succ, List.headD_cons]

theorem cellAt_setCellValue (grid : Grid) (row col : Nat) (v : JsVal)
    (hrow : row < grid.length) (hcol : col < (grid.getD row []).length)
    (y x : Int) :
    cellAt (setCellValue grid row col v) y x =
      if y = (row : Int) ∧ x = (col : Int) then v else cellAt grid y x := by
  have hgetD : grid.getD row [] = grid[row] := by
    rw [List.getD_eq_getElem?_getD, List.getElem?_eq_getElem hrow]
    rfl
  have hset : setCellValue grid row col v =
      grid.set row ((grid.getD row []).set col v) := by
    unfold setCellValue setCellList
    rw [if_pos hcol]
  unfold cellAt
  rw [hset, jsIndex_eq_getElem?, jsIndex_eq_getElem? grid y]
  by_cases h0y : 0 ≤ y
  · rw [if_pos h0y, if_pos h0y, List.getElem?_set]
    by_cases hyrow : row = y.toNat
    · rw [if_pos hyrow, if_pos (by omega : row < grid.length), ← hyrow,
        List.getElem?_eq_getElem hrow]
      dsimp only
      rw [jsIndex_eq_getElem? ((grid.getD row []).set col v) x,
        jsIndex_eq_getElem? grid[row] x]
      by_cases h0x : 0 ≤ x
      · rw [if_pos h0x, if_pos h0x, List.getElem?_set]
        by_cases hxcol : col = x.toNat
        · rw [if_pos hxcol, if_pos hcol,
            if_pos (⟨by omega, by omega⟩ : y = (row : Int) ∧ x = (col : Int))]
        · rw [if_neg hxcol, if_neg (by omega), hgetD]
      · rw [if_neg h0x, if_neg h0x, if_neg (by omega)]
    · rw [if_neg hyrow, if_neg (by omega)]
  · rw [if_neg h0y, if_neg h0y, if_neg (by omega)]

theorem wordFilledAux_cons (grid : Grid) (o : Orientation) (ch : Char)
    (rest : List Char) (x y : Int) :
    wordFilledAux grid o (ch :: rest) x y =
      if (grid.length : Int) ≤ y ∨ (((grid.headD []).length : Int)) ≤ x then false
      else
        match jsIndex grid y with
        | none => false
        | some _ =>
          if cellAt grid y x = JsVal.jsNull ∨ cellAt grid y x = JsVal.str "" then false
          else
            match o with
            | Orientation.across => wordFilledAux grid o rest (x + 1) y
            | Orientation.down => wordFilledAux grid o rest x (y + 1) := by
  rfl

theorem jsIndex_bounds_of_some {α : Type} {l : List α} {i : Int} {a : α}
    (h : jsIndex l i = some a) : 0 ≤ i ∧ i.toNat < l.length := by
  by_contra hno
  rw [(jsIndex_none_iff l i).mpr hno] at h
  cases h

theorem wordCorrectAux_congr (g g2 : Grid) (hlen : g2.length = g.length)
    (hhead : (g2.headD []).length = (g.headD []).length) (o : Orientation) :
    ∀ (chars : List Char) (x y : Int),
      (∀ p ∈ pathPositions o chars.length x y, cellAt g2 p.2 p.1 = cellAt g p.2 p.1) →
      wordCorrectAux g2 o chars x y = wordCorrectAux g o chars x y := by
  intro chars
  induction chars with
  | nil => intro x y _; rfl
  | cons ch rest ih =>
    intro x y hcells
    have hmem : (x, y) ∈ pathPositions o (rest.length + 1) x y := by
      cases o <;> exact List.mem_cons_self _ _
    have hhd : cellAt g2 y x = cellAt g y x :=
      hcells (x, y) (by simpa using hmem)
    rw [wordCorrectAux_cons, wordCorrectAux_cons, hlen, hhead, hhd]
    by_cases hb : (g.length : Int) ≤ y ∨ (((g.headD []).length : Int)) ≤ x
    · rw [if_pos hb, if_pos hb]
    · rw [if_neg hb, if_neg hb]
      cases hjy : jsIndex g y with
      | none =>
        have hno := (jsIndex_none_iff g y).mp hjy
        have hjy2 : jsIndex g2 y = none :=
          (jsIndex_none_iff g2 y).mpr (by rw [hlen]; exact hno)
        rw [hjy2]
      | some r =>
        have hbnd := jsIndex_bounds_of_some hjy
        cases hjy2 : jsIndex g2 y with
        | none =>
          exfalso
          have := (jsIndex_none_iff g2 y).mp hjy2
          rw [hlen] at this
          exact this hbnd
        | some r2 =>
          dsimp only
          by_cases hc : cellAt g y x ≠ JsVal.str (String.singleton ch)
          · rw [if_pos hc, if_pos hc]
          · rw [if_neg hc, if_neg hc]
            cases o with
            | across =>
              exact ih (x + 1) y
                (fun p hp => hcells p (List.mem_cons_of_mem _ hp))
            | down =>
              exact ih x (y + 1)
                (fun p hp => hcells p (List.mem_cons_of_mem _ hp))

theorem wordFilledAux_congr (g g2 : Grid) (hlen : g2.length = g.length)
    (hhead : (g2.headD []).length = (g.headD []).length) (o : Orientation) :
    ∀ (chars : List Char) (x y : Int),
      (∀ p ∈ pathPositions o chars.length x y, cellAt g2 p.2 p.1 = cellAt g p.2 p.1) →
      wordFilledAux g2 o chars x y = wordFilledAux g o chars x y := by
  intro chars
  induction chars with
  | nil => intro x y _; rfl
  | cons ch rest ih =>
    intro x y hcells
    have hmem : (x, y) ∈ pathPositions o (rest.length + 1) x y := by
      cases o <;> exact List.mem_cons_self _ _
    have hhd : cellAt g2 y x = cellAt g y x :=
      hcells (x, y) (by simpa using hmem)
    rw [wordFilledAux_cons, wordFilledAux_cons, hlen, hhead, hhd]
    by_cases hb : (g.length : Int) ≤ y ∨ (((g.headD []).length : Int)) ≤ x
    · rw [if_pos hb, if_pos hb]
    · rw [if_neg hb, if_neg hb]
      cases hjy : jsIndex g y with
      | none =>
        have hno := (jsIndex_none_iff g y).mp hjy
        have hjy2 : jsIndex g2 y = none :=
          (jsIndex_none_iff g2 y).mpr (by rw [hlen]; exact hno)
        rw [hjy2]
      | some r =>
        have hbnd := jsIndex_bounds_of_some hjy
        cases hjy2 : jsIndex g2 y with
        | none =>
          exfalso
          have := (jsIndex_none_iff g2 y).mp hjy2
          rw [hlen] at this
          exact this hbnd
        | some r2 =>
          dsimp only
          by_cases hc : cellAt g y x = JsVal.jsNull ∨ cellAt g y x = JsVal.str ""
          · rw [if_pos hc, if_pos hc]
          · rw [if_neg hc, if_neg hc]
            cases o with
            | across =>
              exact ih (x + 1) y
                (fun p hp => hcells p (List.mem_cons_of_mem _ hp))
            | down =>
              exact ih x (y + 1)
                (fun p hp => hcells p (List.mem_cons_of_mem _ hp))

theorem wordFilledAux_empty (grid : Grid) (o : Orientation) :
    ∀ (chars : List Char) (x y : Int),
      (∃ p ∈ pathPositions o chars.length x y,
        cellAt grid p.2 p.1 = JsVal.jsNull ∨ cellAt grid p.2 p.1 = JsVal.str "") →
      wordFilledAux grid o chars x y = false := by
  intro chars
  induction chars with
  | nil =>
    intro x y h
    simp [pathPositions] at h
  | cons ch rest ih =>
    intro x y h
    obtain ⟨p, hp, hemp⟩ := h
    rw [wordFilledAux_cons]
    by_cases hb : (grid.length : Int) ≤ y ∨ (((grid.headD []).length : Int)) ≤ x
    · rw [if_pos hb]
    · rw [if_neg hb]
      cases hjy : jsIndex grid y with
      | none => rfl
      | some row =>
        dsimp only
        by_cases hce : cellAt grid y x = JsVal.jsNull ∨ cellAt grid y x = JsVal.str ""
        · rw [if_pos hce]
        · rw [if_neg hce]
          cases o with
          | across =>
            have hp' :
                p ∈ (x, y) :: pathPositions Orientation.across rest.length (x + 1) y := by
              simpa [pathPositions] using hp
            rcases List.mem_cons.mp hp' with hfst | htail
            · rw [hfst] at hemp
              exact absurd hemp hce
            · exact ih (x + 1) y ⟨p, htail, hemp⟩
          | down =>
            have hp' :
                p ∈ (x, y) :: pathPositions Orientation.down rest.length x (y + 1) := by
              simpa [pathPositions] using hp
            rcases List.mem_cons.mp hp' with hfst | htail
            · rw [hfst] at hemp
              exact absurd hemp hce
            · exact ih x (y + 1) ⟨p, htail, hemp⟩

theorem cluePath_eq (c : Clue) :
    cluePath c =
      pathPositions c.orientation c.answer.toList.length c.position.x c.position.y := rfl

theorem isWord_congr (g g2 : Grid) (hlen : g2.length = g.length)
    (hhead : (g2.headD []).length = (g.headD []).length) (c : Clue)
    (hcells : ∀ p ∈ cluePath c, cellAt g2 p.2 p.1 = cellAt g p.2 p.1) :
    isWordFilled c g2 = isWordFilled c g ∧ isWordCorrect c g2 = isWordCorrect c g := by
  rw [cluePath_eq] at hcells
  unfold isWordFilled isWordCorrect
  rw [hlen]
  constructor
  · by_cases hg : g.length = 0
    · simp [hg]
    · simp only [hg, if_false]
      exact wordFilledAux_congr g g2 hlen hhead c.orientation c.answer.toList
        c.position.x c.position.y hcells
  · by_cases hg : g.length = 0
    · simp [hg]
    · simp only [hg, if_false]
      exact wordCorrectAux_congr g g2 hlen hhead c.orientation c.answer.toList
        c.position.x c.position.y hcells

theorem isWordFilled_false_of_empty_on_path (grid : Grid) (c : Clue)
    (p : Int × Int) (hp : p ∈ cluePath c)
    (hemp : cellAt grid p.2 p.1 = JsVal.jsNull ∨ cellAt grid p.2 p.1 = JsVal.str "") :
    isWordFilled c grid = false := by
  unfold isWordFilled
  by_cases hg : grid.length = 0
  · simp [hg]
  · simp only [hg, if_false]
    rw [cluePath_eq] at hp
    exact wordFilledAux_empty grid c.orientation c.answer.toList
      c.position.x c.position.y ⟨p, hp, hemp⟩

theorem verdict_le_fill (grid : Grid) (row col : Nat) (v : JsVal)
    (hrow : row < grid.length) (hcol : col < (grid.getD row []).length)
    (hempty : cellAt grid (row : Int) (col : Int) = JsVal.jsNull ∨
              cellAt grid (row : Int) (col : Int) = JsVal.str "")
    (c : Clue) :
    (isWordFilled c grid && isWordCorrect c grid) = true →
    (isWordFilled c (setCellValue grid row col v) &&
      isWordCorrect c (setCellValue grid row col v)) = true := by
  intro h
  by_cases hcover : ((col : Int), (row : Int)) ∈ cluePath c
  · exfalso
    have hfill := isWordFilled_false_of_empty_on_path grid c
      ((col : Int), (row : Int)) hcover hempty
    rw [hfill] at h
    simp at h
  · have hcells : ∀ p ∈ cluePath c,
        cellAt (setCellValue grid row col v) p.2 p.1 = cellAt grid p.2 p.1 := by
      intro p hp
      rw [cellAt_setCellValue grid row col v hrow hcol]
      rw [if_neg]
      intro hcond
      apply hcover
      have : p = ((col : Int), (row : Int)) := by
        cases p
        simp only at hcond
        simp [hcond.1, hcond.2]
      rw [← this]
      exact hp
    have hcongr := isWord_congr grid (setCellValue grid row col v)
      (setCellValue_length grid row col v)
      (headD_length_setCellValue grid row col v hrow hcol) c hcells
    rw [hcongr.1, hcongr.2]
    exact h

theorem verdict_le_clear (grid : Grid) (row col : Nat)
    (hrow : row < grid.length) (hcol : col < (grid.getD row []).length)
    (c : Clue) :
    (isWordFilled c (clearCell grid row col) &&
      isWordCorrect c (clearCell grid row col)) = true →
    (isWordFilled c grid && isWordCorrect c grid) = true := by
  intro h
  by_cases hcover : ((col : Int), (row : Int)) ∈ cluePath c
  · exfalso
    have hcell : cellAt (clearCell grid row col) (row : Int) (col : Int) = JsVal.jsNull := by
      unfold clearCell
      rw [cellAt_setCellValue grid row col JsVal.jsNull hrow hcol,
        if_pos ⟨rfl, rfl⟩]
    have hfill := isWordFilled_false_of_empty_on_path (clearCell grid row col) c
      ((col : Int), (row : Int)) hcover (Or.inl hcell)
    rw [hfill] at h
    simp at h
  · have hcells : ∀ p ∈ cluePath c,
        cellAt (clearCell grid row col) p.2 p.1 = cellAt grid p.2 p.1 := by
      intro p hp
      unfold clearCell
      rw [cellAt_setCellValue grid row col JsVal.jsNull hrow hcol]
      rw [if_neg]
      intro hcond
      apply hcover
      have : p = ((col : Int), (row : Int)) := by
        cases p
        simp only at hcond
        simp [hcond.1, hcond.2]
      rw [← this]
      exact hp
    have hcongr := isWord_congr grid (clearCell grid row col)
      (setCellValue_length grid row col JsVal.jsNull)
      (headD_length_setCellValue grid row col JsVal.jsNull hrow hcol) c hcells
    rw [hcongr.1, hcongr.2] at h
    exact h

theorem validateGrid_map_snd (clues : List Clue) (grid : Grid) :
    (validateGrid clues grid).map Prod.snd =
      clues.map (fun c => isWordFilled c grid && isWordCorrect c grid) := by
  unfold validateGrid
  by_cases hg : grid.length = 0
  · rw [if_pos hg, List.map_map]
    have h1 : clues.enum.map (Prod.snd ∘ fun ic : Nat × Clue => (ic.1, false)) =
        clues.enum.map ((fun _ => false) ∘ Prod.snd) := rfl
    rw [h1, ← List.map_map, List.enum_map_snd]
    apply List.map_congr_left
    intro c _
    have hf : isWordFilled c grid = false := by simp [isWordFilled, hg]
    simp [hf]
  · rw [if_neg hg, List.map_map]
    have h1 : clues.enum.map
        (Prod.snd ∘ fun ic : Nat × Clue =>
          (ic.1, if isWordFilled ic.2 grid then isWordCorrect ic.2 grid else false)) =
        clues.enum.map
          ((fun c => if isWordFilled c grid then isWordCorrect c grid else false) ∘
            Prod.snd) := rfl
    rw [h1, ← List.map_map, List.enum_map_snd]
    apply List.map_congr_left
    intro c _
    cases hf : isWordFilled c grid <;> simp [hf]

theorem count_true_map_le (f g : Clue → Bool) (l : List Clue)
    (h : ∀ c ∈ l, f c = true → g c = true) :
    (l.map f).count true ≤ (l.map g).count true := by
  induction l with
  | nil => simp
  | cons a t ih =>
    have iht := ih (fun c hc => h c (List.mem_cons_of_mem a hc))
    have ha := h a (List.mem_cons_self a t)
    simp only [List.map_cons, List.count_cons]
    cases hfa : f a with
    | true =>
      rw [ha hfa]
      simp only [beq_self_eq_true, if_pos]
      omega
    | false =>
      cases hga : g a <;> simp <;> omega

theorem getCompletionPercentage_mono (clues : List Clue) (g g2 : Grid)
    (h : ∀ c ∈ clues, (isWordFilled c g && isWordCorrect c g) = true →
      (isWordFilled c g2 && isWordCorrect c g2) = true) :
    getCompletionPercentage clues g ≤ getCompletionPercentage clues g2 := by
  unfold getCompletionPercentage
  by_cases hc : clues.length = 0
  · simp [hc]
  · rw [if_neg hc, if_neg hc, validateGrid_map_snd, validateGrid_map_snd]
    apply Nat.div_le_div_right
    have := count_true_map_le _ _ clues h
    omega

/-- Cell coordinates of a clue's path paired with the answer character each
cell is expected to hold. -/
def expectedSymbols (c : Clue) : List ((Int × Int) × Char) :=
  (cluePath c).zip c.answer.toList

/-- Entries sharing a cell agree on that cell's expected symbol (the
Entry invariant of the data model). -/
def CluesAgree (clues : List Clue) : Prop :=
  ∀ c1 ∈ clues, ∀ c2 ∈ clues, ∀ q1 ∈ expectedSymbols c1, ∀ q2 ∈ expectedSymbols c2,
    q1.1 = q2.1 → q1.2 = q2.2

instance (clues : List Clue) : Decidable (CluesAgree clues) := by
  unfold CluesAgree
  infer_instance

/-- C6: under the data-model preconditions (every clue path lies within
the grid and clues sharing a cell agree on its expected symbol), setting a
previously-empty in-bounds cell to the correct symbol never decreases
getCompletionPercentage, and clearing any in-bounds cell never increases
it. -/
theorem completion_monotonicity (clues : List Clue) (grid : Grid)
    (row col : Nat) (v : Char)
    (hrow : row < grid.length) (hcol : col < (grid.getD row []).length)
    (hpaths : ∀ c ∈ clues, PathInGrid c grid)
    (hagree : CluesAgree clues)
    (hempty : cellAt grid (row : Int) (col : Int) = JsVal.jsNull ∨
              cellAt grid (row : Int) (col : Int) = JsVal.str "")
    (hcorrect : ∀ c ∈ clues, ∀ q ∈ expectedSymbols c,
      q.1 = ((col : Int), (row : Int)) → q.2 = v) :
    getCompletionPercentage clues grid ≤
      getCompletionPercentage clues
        (setCellValue grid row col (JsVal.str (String.singleton v))) ∧
    (∀ row2 col2 : Nat, row2 < grid.length → col2 < (grid.getD row2 []).length →
      getCompletionPercentage clues (clearCell grid row2 col2) ≤
        getCompletionPercentage clues grid) := by
  constructor
  · exact getCompletionPercentage_mono clues grid _
      (fun c _ => verdict_le_fill grid row col _ hrow hcol hempty c)
  · intro row2 col2 hrow2 hcol2
    exact getCompletionPercentage_mono clues _ grid
      (fun c _ => verdict_le_clear grid row2 col2 hrow2 hcol2 c)

/-- Witness for C6: a single across entry with answer "J" at (0,0) on the
one-cell grid [[null]]; filling the cell with the correct symbol and
clearing cells both respect monotonicity. -/
theorem completion_monotonicity_witness :
    getCompletionPercentage
        [{ clue := "w", answer := "J", position := { x := 0, y := 0 },
           orientation := Orientation.across, motif_id := 1, motif := none }]
        [[JsVal.jsNull]] ≤
      getCompletionPercentage
        [{ clue := "w", answer := "J", position := { x := 0, y := 0 },
           orientation := Orientation.across, motif_id := 1, motif := none }]
        (setCellValue [[JsVal.jsNull]] 0 0 (JsVal.str (String.singleton 'J'))) :=
  (completion_monotonicity
      [{ clue := "w", answer := "J", position := { x := 0, y := 0 },
         orientation := Orientation.across, motif_id := 1, motif := none }]
      [[JsVal.jsNull]] 0 0 'J'
      (by decide) (by decide) (by decide) (by decide) (by decide) (by decide)).1

/-! Puzzle-load reconciliation and enrichment
(src/music-crossword-ui/src/routes/api/puzzles/[id]/+server.ts). -/

/-- An Entry as stored in the persisted layout, before reconciliation: it
may carry a `position` object, or 1-based startx/starty fields (either of
which may be absent, defaulted to 1 by the `?? 1`). -/
structure RawClue where
  clue : String
  answer : String
  orientation : Orientation
  motif_id : Int
  position : Option Pos
  startx : Option Int
  starty : Option Int
deriving DecidableEq, Repr

/-- Position normalization in the GET handler: keep an existing position
object, otherwise convert the 1-based startx/starty to 0-based by
subtracting one. -/
def normalizePosition (c : RawClue) : Pos :=
  match c.position with
  | some p => p
  | none => { x := c.startx.getD 1 - 1, y := c.starty.getD 1 - 1 }

/-- Lookup in the Map built from the motif list (later entries overwrite
earlier ones on a duplicate key, as for a JavaScript Map). -/
def motifMapGet (motifs : List Motif) (id : Int) : Option Motif :=
  motifs.foldl (fun acc m => if m.id = id then some m else acc) none

/-- Enrichment of one clue: normalized position plus
`motifMap.get(clue.motif_id) || null`. -/
def enrichClue (motifs : List Motif) (c : RawClue) : Clue :=
  { clue := c.clue, answer := c.answer, position := normalizePosition c,
    orientation := c.orientation, motif_id := c.motif_id,
    motif := motifMapGet motifs c.motif_id }

/-- A persisted puzzle layout, pre-reconciliation. -/
structure RawLayout where
  rows : Nat
  cols : Nat
  table : List (List String)
  result : List RawClue
deriving DecidableEq, Repr

/-- The enriched layout served to the client. -/
structure EnrichedLayout where
  rows : Nat
  cols : Nat
  table : List (List String)
  result : List Clue
deriving DecidableEq, Repr

/-- A persisted puzzle record. -/
structure RawPuzzle where
  id : Int
  layout : RawLayout
  motif_ids : List Int
  difficulty : Int
deriving DecidableEq, Repr

/-- The puzzle payload of a successful GET response. -/
structure EnrichedPuzzle where
  id : Int
  layout : EnrichedLayout
  motif_ids : List Int
  difficulty : Int
deriving DecidableEq, Repr

/-- Outcome of the GET /api/puzzles/[id] handler. -/
inductive ApiResponse where
  | success (puzzle : EnrichedPuzzle)
  | failure (status : Nat)
deriving DecidableEq, Repr

/-- Layout enrichment: every clue of the result list is reconciled and
enriched; rows, cols and table pass through. -/
def enrichLayout (motifs : List Motif) (l : RawLayout) : EnrichedLayout :=
  { rows := l.rows, cols := l.cols, table := l.table,
    result := l.result.map (enrichClue motifs) }

/-- The GET handler after the id parse: 404 when the puzzle is missing,
otherwise a success payload with the enriched layout (`motifs` stands for
what getMotifs returned for the puzzle's motif_ids). -/
def apiGetPuzzle (puzzle : Option RawPuzzle) (motifs : List Motif) : ApiResponse :=
  match puzzle with
  | none => ApiResponse.failure 404
  | some p =>
    ApiResponse.success
      { id := p.id, layout := enrichLayout motifs p.layout,
        motif_ids := p.motif_ids, difficulty := p.difficulty }

/-- Concrete raw entry for the C3 counterexample: no position object and a
startx of 0. -/
def rawClueStartxZero : RawClue :=
  { clue := "w", answer := "J", orientation := Orientation.across,
    motif_id := 1, position := none, startx := some 0, starty := some 1 }

/-- C3 counterexample: the reconciliation layer does no bounds checking,
so an entry bearing startx = 0 (outside the 1-based convention) is emitted
with position.x = -1, which is not a valid 0-based column index for any
grid. -/
theorem reconciliation_unbounded :
    (normalizePosition rawClueStartxZero).x = -1 ∧
    ¬ (0 ≤ (normalizePosition rawClueStartxZero).x) := by
  decide

/-- C3 amended: an entry already bearing a position object keeps it
unchanged, and an entry bearing only the 1-based startx/starty fields gets
position.x = startx - 1 and position.y = starty - 1 (startx/starty
defaulting to 1 when absent); the emitted coordinates are valid 0-based
indices into the grid's column/row ranges provided the incoming
coordinates were themselves in range (1 ≤ startx ≤ cols and
1 ≤ starty ≤ rows, resp. an already-valid position object) — the layer
itself performs no bounds check. -/
theorem normalizePosition_spec (c : RawClue) (rows cols : Nat) :
    (∀ p, c.position = some p → normalizePosition c = p) ∧
    (c.position = none →
      normalizePosition c =
        { x := c.startx.getD 1 - 1, y := c.starty.getD 1 - 1 }) ∧
    (c.position = none →
      ∀ sx sy : Int, c.startx = some sx → c.starty = some sy →
        1 ≤ sx → sx ≤ (cols : Int) → 1 ≤ sy → sy ≤ (rows : Int) →
        0 ≤ (normalizePosition c).x ∧ (normalizePosition c).x < (cols : Int) ∧
        0 ≤ (normalizePosition c).y ∧ (normalizePosition c).y < (rows : Int)) := by
  refine ⟨fun p hp => ?keep, fun hp => ?conv, fun hp sx sy hsx hsy h1 h2 h3 h4 => ?rng⟩
  case keep =>
    unfold normalizePosition
    rw [hp]
  case conv =>
    unfold normalizePosition
    rw [hp]
  case rng =>
    unfold normalizePosition
    rw [hp]
    simp only [hsx, hsy, Option.getD_some]
    exact ⟨by omega, by omega, by omega, by omega⟩

/-- Witness for the amended C3 theorem: an entry with startx = 3,
starty = 2 in a 4x4 grid reconciles to the valid 0-based position (2, 1). -/
theorem normalizePosition_spec_witness :
    normalizePosition
        { clue := "w", answer := "J", orientation := Orientation.across,
          motif_id := 1, position := none, startx := some 3, starty := some 2 } =
      { x := 2, y := 1 } ∧
    (0 ≤ (2 : Int) ∧ (2 : Int) < (4 : Nat) ∧ 0 ≤ (1 : Int) ∧ (1 : Int) < (4 : Nat)) := by
  constructor
  · exact (normalizePosition_spec
      { clue := "w", answer := "J", orientation := Orientation.across,
        motif_id := 1, position := none, startx := some 3, starty := some 2 }
      4 4).2.1 rfl
  · have h := (normalizePosition_spec
      { clue := "w", answer := "J", orientation := Orientation.across,
        motif_id := 1, position := none, startx := some 3, starty := some 2 }
      4 4).2.2 rfl 3 2 rfl rfl (by decide) (by decide) (by decide) (by decide)
    exact h

theorem motifMapGet_none_of_no_match (motifs : List Motif) (id : Int)
    (h : ∀ m ∈ motifs, m.id ≠ id) : motifMapGet motifs id = none := by
  unfold motifMapGet
  have haux : ∀ (l : List Motif) (acc : Option Motif), (∀ m ∈ l, m.id ≠ id) →
      l.foldl (fun acc m => if m.id = id then some m else acc) acc = acc := by
    intro l
    induction l with
    | nil => intro acc _; rfl
    | cons a t ih =>
      intro acc hl
      have ha := hl a (List.mem_cons_self a t)
      simp only [List.foldl_cons, if_neg ha]
      exact ih acc (fun m hm => hl m (List.mem_cons_of_mem a hm))
  exact haux motifs none h

/-- C8: a puzzle found in the store is always served successfully, every
entry's motif attachment is exactly the Map lookup of its motif_id, and an
entry whose motif_id matches no motif gets a null (none) attachment — a
dangling motif reference degrades only that entry's enrichment and never
fails the puzzle. -/
theorem dangling_motif_tolerated (p : RawPuzzle) (motifs : List Motif) :
    (∃ q : EnrichedPuzzle, apiGetPuzzle (some p) motifs = ApiResponse.success q ∧
      q.layout.result = p.layout.result.map (enrichClue motifs)) ∧
    (∀ c : RawClue, (enrichClue motifs c).motif = motifMapGet motifs c.motif_id) ∧
    (∀ c : RawClue, (∀ m ∈ motifs, m.id ≠ c.motif_id) →
      (enrichClue motifs c).motif = none) := by
  refine ⟨⟨_, rfl, rfl⟩, fun c => rfl, ?_⟩
  intro c hc
  show motifMapGet motifs c.motif_id = none
  exact motifMapGet_none_of_no_match motifs c.motif_id hc

/-- Witness for C8: a one-entry puzzle whose motif_id 7 matches no motif in
the (empty) motif list is served successfully with a null attachment. -/
theorem dangling_motif_tolerated_witness :
    (enrichClue []
        { clue := "w", answer := "J", orientation := Orientation.across,
          motif_id := 7, position := none, startx := some 1, starty := some 1 }).motif =
      none :=
  (dangling_motif_tolerated
      { id := 1,
        layout := { rows := 1, cols := 1, table := [["J"]], result := [] },
        motif_ids := [7], difficulty := 1 }
      []).2.2
    { clue := "w", answer := "J", orientation := Orientation.across,
      motif_id := 7, position := none, startx := some 1, starty := some 1 }
    (by intro m hm; cases hm)

/-! Audio playback guard (the AudioPlayer component, src/unnamed/part_004,
and src/music-crossword-ui/src/lib/stores/audio.ts). A play() call sets
the store busy for its clue, sounds the melody asynchronously, and clears
the store when done; handlePlay only starts a play() when the component's
own isPlaying flag — playing && currentClueIndex === clueIndex — is
false. The session state also records the multiset of melodies currently
sounding, so concurrent playback is observable in the model. -/

/-- The audio store fields the guard reads (stores/audio.ts). -/
structure AudioState where
  playing : Bool
  currentClueIndex : Option Nat
deriving DecidableEq, Repr

/-- setPlaying: currentClueIndex is kept only while playing. -/
def setPlaying (p : Bool) (clueIndex : Option Nat) (s : AudioState) : AudioState :=
  { playing := p, currentClueIndex := if p then clueIndex else none }

/-- The component's isPlaying for the AudioPlayer bound to clue i. -/
def isPlayingFor (s : AudioState) (i : Nat) : Bool :=
  s.playing && (s.currentClueIndex == some i)

/-- A playback session: the store plus the clue indexes of every melody
currently sounding. -/
structure PlayerSession where
  store : AudioState
  inflight : List Nat
deriving DecidableEq, Repr

/-- The initial session: nothing playing. -/
def initSession : PlayerSession :=
  { store := { playing := false, currentClueIndex := none }, inflight := [] }

/-- handlePlay for the AudioPlayer of clue i: a no-op while that
component's isPlaying is set, otherwise it starts a new melody. -/
def handlePlay (i : Nat) (s : PlayerSession) : PlayerSession :=
  if isPlayingFor s.store i then s
  else { store := setPlaying true (some i) s.store, inflight := i :: s.inflight }

/-- A melody finishing: the finally-block clears the playing flag and the
melody stops sounding. -/
def finishPlay (i : Nat) (s : PlayerSession) : PlayerSession :=
  { store := setPlaying false none s.store, inflight := s.inflight.erase i }

/-- Sessions reachable through play requests and melody completions. -/
inductive Reachable : PlayerSession → Prop where
  | init : Reachable initSession
  | play (i : Nat) {s : PlayerSession} : Reachable s → Reachable (handlePlay i s)
  | finish (i : Nat) {s : PlayerSession} : Reachable s → i ∈ s.inflight →
      Reachable (finishPlay i s)

/-- C7 counterexample: while the melody of clue 0 is in progress, a play
request for clue 1 is not a no-op — the guard compares the current clue
index, so the session reaches a state with two melodies sounding
concurrently. -/
theorem concurrent_playback_reachable :
    Reachable { store := { playing := true, currentClueIndex := some 1 },
                inflight := [1, 0] } ∧
    2 ≤ ([1, 0] : List Nat).length := by
  constructor
  · have h0 : Reachable (handlePlay 0 initSession) :=
      Reachable.play 0 Reachable.init
    have h1 : Reachable (handlePlay 1 (handlePlay 0 initSession)) :=
      Reachable.play 1 h0
    have heq : handlePlay 1 (handlePlay 0 initSession) =
        { store := { playing := true, currentClueIndex := some 1 },
          inflight := [1, 0] } := by decide
    rw [heq] at h1
    exact h1
  · decide

/-- C7 amended: the busy flag guards per clue, not per session: while a
melody is in progress for clue i, a second play request for the same clue
i is a no-op, but a play request for a different clue j starts a second
melody immediately (taking over the store's current clue index), so two
melodies can sound concurrently. -/
theorem busy_guard_per_clue (s : PlayerSession) (i j : Nat)
    (hplaying : s.store.playing = true)
    (hcur : s.store.currentClueIndex = some i) :
    handlePlay i s = s ∧
    (j ≠ i →
      (handlePlay j s).inflight = j :: s.inflight ∧
      (handlePlay j s).store =
        { playing := true, currentClueIndex := some j }) := by
  constructor
  · unfold handlePlay isPlayingFor
    rw [hplaying, hcur]
    simp
  · intro hj
    have hguard : isPlayingFor s.store j = false := by
      unfold isPlayingFor
      rw [hplaying, hcur]
      simp only [Bool.true_and]
      rw [beq_eq_false_iff_ne]
      intro hsome
      injection hsome with hij
      exact hj hij.symm
    unfold handlePlay
    rw [hguard]
    exact ⟨rfl, rfl⟩

/-- Witness for the amended C7 theorem in the session where clue 0 is
playing: a repeated play request for clue 0 changes nothing. -/
theorem busy_guard_per_clue_witness :
    handlePlay 0
        { store := { playing := true, currentClueIndex := some 0 },
          inflight := [0] } =
      { store := { playing := true, currentClueIndex := some 0 },
        inflight := [0] } :=
  (busy_guard_per_clue
      { store := { playing := true, currentClueIndex := some 0 },
        inflight := [0] } 0 1 rfl rfl).1

/-! Motif creation and update (the database utilities,
src/unnamed/part_010): string normalization helpers and the derived-field
computations. The SHA-256 digest is kept abstract as a parameter
`hash : String → String`; everything else is computed as in the source. -/

/-- Both-ends whitespace trim of a character list
(String.prototype.trim). -/
def trimChars (l : List Char) : List Char :=
  List.rdropWhile Char.isWhitespace (l.dropWhile Char.isWhitespace)

/-- Trim of a string. -/
def strTrim (s : String) : String :=
  String.mk (trimChars s.toList)

theorem dropWhile_prefix_self {p : Char → Bool} {m pre : List Char}
    (hm : m.dropWhile p = m) (hpre : pre <+: m) : pre.dropWhile p = pre := by
  obtain ⟨t, ht⟩ := hpre
  subst ht
  cases pre with
  | nil => rfl
  | cons a pr =>
    rw [List.dropWhile_eq_self_iff] at hm ⊢
    intro hl
    have hml : 0 < ((a :: pr) ++ t).length := by simp
    exact hm hml

theorem trimChars_idem (l : List Char) : trimChars (trimChars l) = trimChars l := by
  unfold trimChars
  have hm : (l.dropWhile Char.isWhitespace).dropWhile Char.isWhitespace =
      l.dropWhile Char.isWhitespace := List.dropWhile_idempotent _ _
  have hpre : List.rdropWhile Char.isWhitespace (l.dropWhile Char.isWhitespace) <+:
      l.dropWhile Char.isWhitespace := List.rdropWhile_prefix _ _
  rw [dropWhile_prefix_self hm hpre, List.rdropWhile_idempotent]

theorem strTrim_toList (s : String) : (strTrim s).toList = trimChars s.toList := rfl

theorem strTrim_idem (s : String) : strTrim (strTrim s) = strTrim s := by
  unfold strTrim
  show String.mk (trimChars (trimChars s.toList)) = String.mk (trimChars s.toList)
  rw [trimChars_idem]

/-- Tokenizer accumulator: split on whitespace runs, dropping empty
tokens (the behavior of split(/\s+/) on an already-trimmed string). -/
def wsTokensAux (cur : List Char) : List Char → List (List Char)
  | [] => if cur.isEmpty then [] else [cur.reverse]
  | c :: cs =>
    if c.isWhitespace then
      if cur.isEmpty then wsTokensAux [] cs else cur.reverse :: wsTokensAux [] cs
    else wsTokensAux (c :: cur) cs

/-- The note-token list `pitchSequence.trim().split(/\s+/)` of the
database utilities (JavaScript split of the empty string yields [""]). -/
def jsNotes (s : String) : List String :=
  let t := trimChars s.toList
  if t.isEmpty then [""] else (wsTokensAux [] t).map (fun l => String.mk l)

theorem jsNotes_trim (s : String) : jsNotes (strTrim s) = jsNotes s := by
  unfold jsNotes
  rw [strTrim_toList, trimChars_idem]

/-- extractPitchClass: the regex match ^([A-G][#b]?), the note itself when
there is no match. -/
def extractPitchClass (note : String) : String :=
  match note.toList with
  | [] => note
  | c :: rest =>
    if 'A' ≤ c ∧ c ≤ 'G' then
      match rest with
      | c2 :: _ =>
        if c2 = '#' ∨ c2 = 'b' then String.mk [c, c2] else String.mk [c]
      | [] => String.mk [c]
    else note

/-- extractOctave: the trailing-digit run as a decimal number, defaulting
to 4 when the note carries no octave digits. -/
def extractOctave (note : String) : Nat :=
  let ds := (note.toList.reverse.takeWhile Char.isDigit).reverse
  if ds.isEmpty then 4 else ds.foldl (fun n d => n * 10 + (d.toNat - 48)) 0

/-- Template-literal rendering of an interval: a leading plus sign for
non-negative values. -/
def intervalString (i : Int) : String :=
  (if 0 ≤ i then "+" else "") ++ toString i

/-- Absolute semitone value of a note: pitchMap[pitchClass] ?? 0 plus 12
per octave. -/
def noteSemitone (note : String) : Int :=
  (((semitoneMap.lookup (extractPitchClass note)).getD 0 : Nat) : Int) +
    (extractOctave note : Int) * 12

/-- Pairwise intervals of consecutive notes. -/
def intervalsAux : List String → List String
  | a :: b :: rest =>
    intervalString (noteSemitone b - noteSemitone a) :: intervalsAux (b :: rest)
  | _ => []

/-- calculateIntervalProfile: the space-joined pairwise semitone interval
list, empty for fewer than two notes. -/
def calculateIntervalProfile (s : String) : String :=
  let notes := jsNotes s
  if notes.length < 2 then "" else String.intercalate " " (intervalsAux notes)

theorem calculateIntervalProfile_trim (s : String) :
    calculateIntervalProfile (strTrim s) = calculateIntervalProfile s := by
  unfold calculateIntervalProfile
  rw [jsNotes_trim]

/-- calculateChecksum: the digest of the trimmed, upper-cased sequence. -/
def calculateChecksum (hash : String → String) (s : String) : String :=
  hash (strTrim s).toUpper

theorem calculateChecksum_trim (hash : String → String) (s : String) :
    calculateChecksum hash (strTrim s) = calculateChecksum hash s := by
  unfold calculateChecksum
  rw [strTrim_idem]

/-- Payload of createMotif. -/
structure CreateMotifData where
  descriptor : String
  pitch_sequence : String
  rhythm_sequence : Option String
  difficulty : Int
  recognition_score : Int
deriving DecidableEq, Repr

/-- Payload of updateMotif: the outer Option is `field !== undefined`;
for rhythm_sequence the inner Option is an explicit null. -/
structure UpdateMotifData where
  descriptor : Option String
  pitch_sequence : Option String
  rhythm_sequence : Option (Option String)
  difficulty : Option Int
  recognition_score : Option Int
deriving DecidableEq, Repr

/-- Stored rhythm field: data.rhythm_sequence?.trim() || null. -/
def normalizeRhythm (r : Option String) : Option String :=
  match r with
  | none => none
  | some t => if (strTrim t).toList.isEmpty then none else some (strTrim t)

/-- The motif row inserted by createMotif, with every derived field
computed from the new pitch sequence. -/
def newMotifFrom (hash : String → String) (nextId sourceId : Int)
    (d : CreateMotifData) : Motif :=
  let notes := jsNotes d.pitch_sequence
  { id := nextId,
    pitch_sequence := strTrim d.pitch_sequence,
    rhythm_sequence := normalizeRhythm d.rhythm_sequence,
    interval_profile := calculateIntervalProfile d.pitch_sequence,
    length := notes.length,
    first_pitch := extractPitchClass (notes.headD ""),
    last_pitch := extractPitchClass (notes.getLastD ""),
    difficulty := d.difficulty,
    descriptor := some (strTrim d.descriptor),
    source_id := sourceId,
    recognition_score := d.recognition_score,
    checksum := calculateChecksum hash d.pitch_sequence }

/-- createMotif over a store: the UNIQUE(checksum) constraint rejects a
duplicate (the thrown error leaves the store unchanged), otherwise the new
row is appended. -/
def createMotif (hash : String → String) (store : List Motif)
    (nextId sourceId : Int) (d : CreateMotifData) : List Motif :=
  let m := newMotifFrom hash nextId sourceId d
  if store.any (fun x => x.checksum == m.checksum) then store else store ++ [m]

/-- Field updates of updateMotif on the matched row: each provided field
is written, and a provided pitch_sequence recomputes length, first_pitch,
last_pitch, interval_profile and checksum in the same update. -/
def applyUpdate (hash : String → String) (m : Motif) (d : UpdateMotifData) : Motif :=
  let m1 :=
    match d.descriptor with
    | some de => { m with descriptor := some (strTrim de) }
    | none => m
  let m2 :=
    match d.pitch_sequence with
    | some s =>
      let notes := jsNotes s
      { m1 with
        pitch_sequence := strTrim s,
        length := notes.length,
        first_pitch := extractPitchClass (notes.headD ""),
        last_pitch := extractPitchClass (notes.getLastD ""),
        interval_profile := calculateIntervalProfile s,
        checksum := calculateChecksum hash s }
    | none => m1
  let m3 :=
    match d.rhythm_sequence with
    | some r => { m2 with rhythm_sequence := normalizeRhythm r }
    | none => m2
  let m4 :=
    match d.difficulty with
    | some df => { m3 with difficulty := df }
    | none => m3
  match d.recognition_score with
  | some rs => { m4 with recognition_score := rs }
  | none => m4

/-- updateMotif over a store: no-op when the id is absent; the
UNIQUE(checksum) constraint rejects an update whose new checksum collides
with another row; otherwise the matched row gets the field updates. -/
def updateMotif (hash : String → String) (store : List Motif) (id : Int)
    (d : UpdateMotifData) : List Motif :=
  if ¬ store.any (fun m => m.id == id) then store
  else if (match d.pitch_sequence with
           | some s =>
             store.any (fun m => m.id != id && (m.checksum == calculateChecksum hash s))
           | none => false) then store
  else store.map (fun m => if m.id = id then applyUpdate hash m d else m)

/-- A motif row's cached fields agree with its stored pitch sequence. -/
def DerivedConsistent (hash : String → String) (m : Motif) : Prop :=
  m.length = (jsNotes m.pitch_sequence).length ∧
  m.first_pitch = extractPitchClass ((jsNotes m.pitch_sequence).headD "") ∧
  m.last_pitch = extractPitchClass ((jsNotes m.pitch_sequence).getLastD "") ∧
  m.interval_profile = calculateIntervalProfile m.pitch_sequence ∧
  m.checksum = calculateChecksum hash m.pitch_sequence

/-- Every row of the store is derived-consistent. -/
def StoreConsistent (hash : String → String) (store : List Motif) : Prop :=
  ∀ m ∈ store, DerivedConsistent hash m

theorem newMotifFrom_consistent (hash : String → String) (nextId sourceId : Int)
    (d : CreateMotifData) : DerivedConsistent hash (newMotifFrom hash nextId sourceId d) := by
  unfold DerivedConsistent newMotifFrom
  simp only
  rw [jsNotes_trim, calculateIntervalProfile_trim, calculateChecksum_trim]
  exact ⟨rfl, rfl, rfl, rfl, rfl⟩

theorem applyUpdate_consistent (hash : String → String) (m : Motif)
    (d : UpdateMotifData) (hm : DerivedConsistent hash m) :
    DerivedConsistent hash (applyUpdate hash m d) := by
  obtain ⟨h1, h2, h3, h4, h5⟩ := hm
  unfold applyUpdate DerivedConsistent
  cases d.descriptor <;> cases d.pitch_sequence <;> cases d.rhythm_sequence <;>
    cases d.difficulty <;> cases d.recognition_score <;>
    simp_all [jsNotes_trim, calculateIntervalProfile_trim, calculateChecksum_trim]

theorem createMotif_consistent (hash : String → String) (store : List Motif)
    (nextId sourceId : Int) (d : CreateMotifData)
    (h : StoreConsistent hash store) :
    StoreConsistent hash (createMotif hash store nextId sourceId d) := by
  unfold createMotif
  by_cases hdup :
      store.any (fun x => x.checksum == (newMotifFrom hash nextId sourceId d).checksum)
  · simpa [hdup] using h
  · simp only [hdup, Bool.false_eq_true, if_false]
    intro m hmem
    rcases List.mem_append.mp hmem with hin | hnew
    · exact h m hin
    · rw [List.mem_singleton.mp hnew]
      exact newMotifFrom_consistent hash nextId sourceId d

theorem updateMotif_consistent (hash : String → String) (store : List Motif)
    (id : Int) (d : UpdateMotifData) (h : StoreConsistent hash store) :
    StoreConsistent hash (updateMotif hash store id d) := by
  unfold updateMotif
  by_cases hfound : ¬ store.any (fun m => m.id == id)
  · simpa [hfound] using h
  · simp only [hfound, if_false]
    by_cases hcol : (match d.pitch_sequence with
        | some s =>
          store.any (fun m => m.id != id && (m.checksum == calculateChecksum hash s))
        | none => false)
    · simpa [hcol] using h
    · simp only [hcol, if_false]
      intro m hmem
      obtain ⟨orig, horig, hmap⟩ := List.mem_map.mp hmem
      by_cases hid : orig.id = id
      · rw [← hmap, if_pos hid]
        exact applyUpdate_consistent hash orig d (h orig horig)
      · rw [← hmap, if_neg hid]
        exact h orig horig

/-- One store operation: create or update. -/
inductive MotifOp where
  | create (nextId sourceId : Int) (d : CreateMotifData)
  | update (id : Int) (d : UpdateMotifData)
deriving Repr

/-- Application of one store operation. -/
def applyMotifOp (hash : String → String) (store : List Motif) :
    MotifOp → List Motif
  | MotifOp.create nextId sourceId d => createMotif hash store nextId sourceId d
  | MotifOp.update id d => updateMotif hash store id d

/-- Application of a sequence of store operations. -/
def applyMotifOps (hash : String → String) (store : List Motif)
    (ops : List MotifOp) : List Motif :=
  ops.foldl (applyMotifOp hash) store

/-- C9: every update that provides a pitch_sequence recomputes length,
first_pitch, last_pitch, interval_profile and checksum within the same
update, and creates compute them from the inserted sequence, so after any
sequence of create and update operations on a consistent store every
motif's cached derived fields agree with the pitch sequence they
describe — they are never stale. -/
theorem derived_fields_never_stale (hash : String → String) (store : List Motif)
    (h : StoreConsistent hash store) (ops : List MotifOp) :
    StoreConsistent hash (applyMotifOps hash store ops) := by
  induction ops generalizing store with
  | nil => exact h
  | cons op rest ih =>
    show StoreConsistent hash (applyMotifOps hash (applyMotifOp hash store op) rest)
    apply ih
    cases op with
    | create nextId sourceId d => exact createMotif_consistent hash store nextId sourceId d h
    | update id d => exact updateMotif_consistent hash store id d h

/-- Witness for C9: starting from the empty store, a create of "C4 E4 G4"
followed by an update to "G4 G4 G4 D#4" leaves a consistent store. -/
theorem derived_fields_never_stale_witness :
    StoreConsistent (fun s => s)
      (applyMotifOps (fun s => s) []
        [MotifOp.create 1 1
          { descriptor := "Ode", pitch_sequence := "C4 E4 G4",
            rhythm_sequence := none, difficulty := 1, recognition_score := 9 },
         MotifOp.update 1
          { descriptor := none, pitch_sequence := some "G4 G4 G4 D#4",
            rhythm_sequence := none, difficulty := none,
            recognition_score := none }]) :=
  derived_fields_never_stale (fun s => s) [] (fun m hm => absurd hm (List.not_mem_nil m))
    [MotifOp.create 1 1
      { descriptor := "Ode", pitch_sequence := "C4 E4 G4",
        rhythm_sequence := none, difficulty := 1, recognition_score := 9 },
     MotifOp.update 1
      { descriptor := none, pitch_sequence := some "G4 G4 G4 D#4",
        rhythm_sequence := none, difficulty := none, recognition_score := none }]

/-! First-note pre-reveal (src/unnamed/part_005: ensureFirstNotes,
initializeGrid, clearGrid; noteToLetter and parsePitchSequence from
pitchMapping.ts). The firstNotePositions highlight store is not part of
the grid contents and is not modelled. -/

/-- parsePitchSequence: pitchSequence.trim().split(/\s+/), the same
computation as the database utilities' note split. -/
def parsePitchSequence (s : String) : List String :=
  jsNotes s

/-- JavaScript String.replace with a string pattern replaces the first
occurrence only. -/
def replaceFirstSharp : List Char → List Char
  | [] => []
  | c :: cs => if c = '♯' then '#' :: cs else c :: replaceFirstSharp cs

/-- noteToLetter: PITCH_MAP[note with ♯ normalized to #] || note. -/
def noteToLetter (note : String) : String :=
  (PITCH_MAP.lookup (String.mk (replaceFirstSharp note.toList))).getD note

/-- getFirstNote: null for a falsy (empty) sequence or an empty token
list, else the pitch class of the first note. -/
def getFirstNote (ps : String) : Option String :=
  if ps = "" then none
  else
    match parsePitchSequence ps with
    | [] => none
    | n :: _ => some (extractPitchClass n)

/-- In-bounds portion of the JavaScript write newGrid[y][x] = v at Int
coordinates; a write at a negative index stores an object property that no
array read used by the model observes, so it is a no-op here. -/
def jsSetCellInt (g : Grid) (y x : Int) (v : JsVal) : Grid :=
  if 0 ≤ y ∧ 0 ≤ x then
    match jsIndex g y with
    | some row => g.set y.toNat (setCellList row x.toNat v)
    | none => g
  else g

/-- Loop body of ensureFirstNotes for one clue: the `if (firstNote)`
truthiness check skips both a null first note and the falsy empty string
(a whitespace-only pitch_sequence makes getFirstNote yield ""); otherwise
the encoded first pitch is written at the clue's position when the guard
y < rows && x < cols && newGrid[y] passes. -/
def placeFirstNote (rows cols : Nat) (g : Grid) (c : Clue) : Grid :=
  match c.motif with
  | none => g
  | some m =>
    match getFirstNote m.pitch_sequence with
    | none => g
    | some fn =>
      if fn = "" then g
      else if c.position.y < (rows : Int) ∧ c.position.x < (cols : Int) ∧
          (jsIndex g c.position.y).isSome then
        jsSetCellInt g c.position.y c.position.x (JsVal.str (noteToLetter fn))
      else g

/-- ensureFirstNotes: place every clue's first note over a copy of the
grid, overwriting any existing value at those cells. -/
def ensureFirstNotes (g : Grid) (clues : List Clue) (rows cols : Nat) : Grid :=
  clues.foldl (placeFirstNote rows cols) g

/-- initializeGrid: a rows-by-cols all-null grid, with first notes
pre-populated when a non-empty clue list is provided. -/
def initializeGrid (rows cols : Nat) (clues : Option (List Clue)) : Grid :=
  let g : Grid := List.replicate rows (List.replicate cols JsVal.jsNull)
  match clues with
  | some cl => if cl.length > 0 then ensureFirstNotes g cl rows cols else g
  | none => g

/-- clearGrid: re-initialize from the loaded puzzle's dimensions and
clues; a no-op when no puzzle is loaded. -/
def clearGrid (puzzle : Option EnrichedPuzzle) (current : Grid) : Grid :=
  match puzzle with
  | some p => initializeGrid p.layout.rows p.layout.cols (some p.layout.result)
  | none => current

/-- The grid letter a clue's first note pre-reveals: none when the clue
has no motif, getFirstNote yields null, or the first note is the falsy
empty string (which the loop body's `if (firstNote)` skips). -/
def firstNoteLetterOf (c : Clue) : Option String :=
  match c.motif with
  | none => none
  | some m =>
    match getFirstNote m.pitch_sequence with
    | none => none
    | some fn => if fn = "" then none else some (noteToLetter fn)

/-- Clues that start at the same position carry the same encoded first
pitch (the reflection of the shared-cell agreement invariant of Entries
at the start cells). -/
def FirstNotesAgree (clues : List Clue) : Prop :=
  ∀ c1 ∈ clues, ∀ c2 ∈ clues, c1.position = c2.position →
    firstNoteLetterOf c1 = none ∨ firstNoteLetterOf c2 = none ∨
      firstNoteLetterOf c1 = firstNoteLetterOf c2

instance (clues : List Clue) : Decidable (FirstNotesAgree clues) := by
  unfold FirstNotesAgree
  infer_instance

theorem setCellList_get_self (row : List JsVal) (i : Nat) (v : JsVal) :
    (setCellList row i v)[i]? = some v := by
  unfold setCellList
  by_cases h : i < row.length
  · rw [if_pos h, List.getElem?_set, if_pos rfl, if_pos h]
  · rw [if_neg h]
    have hlen : (row ++ List.replicate (i - row.length) JsVal.undef).length = i := by
      simp only [List.length_append, List.length_replicate]
      omega
    rw [List.getElem?_append_right (le_of_eq hlen), hlen, Nat.sub_self]
    rfl

theorem optionMatchGetD (o : Option JsVal) :
    (match o with | none => JsVal.undef | some w => w) = o.getD JsVal.undef := by
  cases o <;> rfl

theorem setCellList_getD_ne (row : List JsVal) (i j : Nat) (v : JsVal)
    (hne : j ≠ i) :
    ((setCellList row i v)[j]?).getD JsVal.undef = (row[j]?).getD JsVal.undef := by
  unfold setCellList
  by_cases h : i < row.length
  · rw [if_pos h, List.getElem?_set, if_neg (fun he => hne he.symm)]
  · rw [if_neg h, List.getElem?_append]
    have hlen : (row ++ List.replicate (i - row.length) JsVal.undef).length =
        row.length + (i - row.length) := by
      simp [List.length_append, List.length_replicate]
    by_cases hout : j < (row ++ List.replicate (i - row.length) JsVal.undef).length
    · rw [if_pos hout, List.getElem?_append]
      by_cases hj : j < row.length
      · rw [if_pos hj]
      · rw [if_neg hj]
        have hrowj : row[j]? = none := List.getElem?_eq_none (by omega)
        rw [hrowj, List.getElem?_replicate,
          if_pos (by rw [hlen] at hout; omega)]
        rfl
    · rw [if_neg hout]
      have hj : ¬ j < row.length := by
        rw [hlen] at hout
        omega
      have hrowj : row[j]? = none := List.getElem?_eq_none (by omega)
      have hnone : ([v] : List JsVal)[j -
          (row ++ List.replicate (i - row.length) JsVal.undef).length]? = none := by
        apply List.getElem?_eq_none
        simp only [List.length_singleton]
        rw [hlen] at hout ⊢
        omega
      rw [hrowj, hnone]

theorem jsSetCellInt_length (g : Grid) (y x : Int) (v : JsVal) :
    (jsSetCellInt g y x v).length = g.length := by
  unfold jsSetCellInt
  by_cases h : 0 ≤ y ∧ 0 ≤ x
  · rw [if_pos h]
    cases hjy : jsIndex g y with
    | none => rfl
    | some row => simp [List.length_set]
  · rw [if_neg h]

theorem cellAt_jsSetCellInt_self (g : Grid) (y x : Int) (v : JsVal)
    (h0y : 0 ≤ y) (h0x : 0 ≤ x) (hrow : (jsIndex g y).isSome = true) :
    cellAt (jsSetCellInt g y x v) y x = v := by
  unfold jsSetCellInt
  rw [if_pos ⟨h0y, h0x⟩]
  cases hjy : jsIndex g y with
  | none =>
    rw [hjy] at hrow
    cases hrow
  | some row =>
    have hylen : y.toNat < g.length := (jsIndex_bounds_of_some hjy).2
    unfold cellAt
    rw [jsIndex_eq_getElem?, if_pos h0y, List.getElem?_set, if_pos rfl, if_pos hylen]
    dsimp only
    rw [jsIndex_eq_getElem?, if_pos h0x, setCellList_get_self]

theorem cellAt_jsSetCellInt_ne (g : Grid) (y x : Int) (v : JsVal) (p q : Int)
    (h0p : 0 ≤ p) (h0q : 0 ≤ q) (hne : ¬(p = y ∧ q = x)) :
    cellAt (jsSetCellInt g y x v) p q = cellAt g p q := by
  unfold jsSetCellInt
  by_cases hw : 0 ≤ y ∧ 0 ≤ x
  · rw [if_pos hw]
    cases hjy : jsIndex g y with
    | none => rfl
    | some row =>
      unfold cellAt
      rw [jsIndex_eq_getElem?, jsIndex_eq_getElem? g p, if_pos h0p, if_pos h0p,
        List.getElem?_set]
      by_cases hpy : y.toNat = p.toNat
      · have hpy' : p = y := by omega
        have hqx : q ≠ x := fun hq => hne ⟨hpy', hq⟩
        have hgp : g[p.toNat]? = some row := by
          have hg := hjy
          rw [jsIndex_eq_getElem?, if_pos hw.1] at hg
          rw [← hpy]
          exact hg
        rw [if_pos hpy, if_pos (jsIndex_bounds_of_some hjy).2, hgp]
        dsimp only
        rw [jsIndex_eq_getElem?, jsIndex_eq_getElem? row q, if_pos h0q, if_pos h0q]
        rw [optionMatchGetD, optionMatchGetD]
        exact setCellList_getD_ne row x.toNat q.toNat v (by omega)
      · rw [if_neg hpy]
  · rw [if_neg hw]

theorem placeFirstNote_length (rows cols : Nat) (g : Grid) (c : Clue) :
    (placeFirstNote rows cols g c).length = g.length := by
  unfold placeFirstNote
  cases hm : c.motif with
  | none => rfl
  | some m =>
    dsimp only
    cases hfn : getFirstNote m.pitch_sequence with
    | none => rfl
    | some fn =>
      dsimp only
      by_cases hfn0 : fn = ""
      · rw [if_pos hfn0]
      · rw [if_neg hfn0]
        by_cases hg : c.position.y < (rows : Int) ∧ c.position.x < (cols : Int) ∧
            (jsIndex g c.position.y).isSome = true
        · rw [if_pos hg]
          exact jsSetCellInt_length g c.position.y c.position.x _
        · rw [if_neg hg]

theorem placeFirstNote_writes (rows cols : Nat) (g : Grid) (c : Clue) (l : String)
    (hl : firstNoteLetterOf c = some l)
    (hg : c.position.y < (rows : Int) ∧ c.position.x < (cols : Int) ∧
      (jsIndex g c.position.y).isSome = true) :
    placeFirstNote rows cols g c =
      jsSetCellInt g c.position.y c.position.x (JsVal.str l) := by
  unfold firstNoteLetterOf at hl
  unfold placeFirstNote
  cases hm : c.motif with
  | none =>
    rw [hm] at hl
    cases hl
  | some m =>
    rw [hm] at hl
    dsimp only at hl ⊢
    cases hfn : getFirstNote m.pitch_sequence with
    | none =>
      rw [hfn] at hl
      cases hl
    | some fn =>
      rw [hfn] at hl
      dsimp only at hl
      by_cases hfn0 : fn = ""
      · rw [if_pos hfn0] at hl
        cases hl
      · rw [if_neg hfn0] at hl
        dsimp only
        rw [if_neg hfn0, if_pos hg, Option.some_inj.mp hl]

theorem placeFirstNote_eq_or (rows cols : Nat) (g : Grid) (c : Clue) :
    placeFirstNote rows cols g c = g ∨
    ∃ l, firstNoteLetterOf c = some l ∧
      (c.position.y < (rows : Int) ∧ c.position.x < (cols : Int) ∧
        (jsIndex g c.position.y).isSome = true) ∧
      placeFirstNote rows cols g c =
        jsSetCellInt g c.position.y c.position.x (JsVal.str l) := by
  cases hm : c.motif with
  | none =>
    left
    unfold placeFirstNote
    rw [hm]
  | some m =>
    cases hfn : getFirstNote m.pitch_sequence with
    | none =>
      left
      unfold placeFirstNote
      rw [hm]
      dsimp only
      rw [hfn]
    | some fn =>
      by_cases hfn0 : fn = ""
      · left
        unfold placeFirstNote
        rw [hm]
        dsimp only
        rw [hfn]
        dsimp only
        rw [if_pos hfn0]
      · by_cases hg : c.position.y < (rows : Int) ∧ c.position.x < (cols : Int) ∧
            (jsIndex g c.position.y).isSome = true
        · right
          have hletter : firstNoteLetterOf c = some (noteToLetter fn) := by
            unfold firstNoteLetterOf
            rw [hm]
            dsimp only
            rw [hfn]
            dsimp only
            rw [if_neg hfn0]
          exact ⟨noteToLetter fn, hletter, hg,
            placeFirstNote_writes rows cols g c (noteToLetter fn) hletter hg⟩
        · left
          unfold placeFirstNote
          rw [hm]
          dsimp only
          rw [hfn]
          dsimp only
          rw [if_neg hfn0, if_neg hg]

theorem foldl_preserves_letter (rows cols : Nat) :
    ∀ (rest : List Clue) (g : Grid) (y x : Int) (l : String),
      0 ≤ y → 0 ≤ x →
      cellAt g y x = JsVal.str l →
      (∀ c ∈ rest, c.position = ({ x := x, y := y } : Pos) →
        ∀ l2, firstNoteLetterOf c = some l2 → l2 = l) →
      cellAt (List.foldl (placeFirstNote rows cols) g rest) y x = JsVal.str l := by
  intro rest
  induction rest with
  | nil =>
    intro g y x l _ _ hc _
    exact hc
  | cons c0 r ih =>
    intro g y x l h0y h0x hc hothers
    rw [List.foldl_cons]
    rcases placeFirstNote_eq_or rows cols g c0 with heq | ⟨l2, hl2, hg, heq⟩
    · rw [heq]
      exact ih g y x l h0y h0x hc
        (fun c hcm => hothers c (List.mem_cons_of_mem _ hcm))
    · rw [heq]
      by_cases hpos : c0.position = ({ x := x, y := y } : Pos)
      · have hl2l : l2 = l := hothers c0 (List.mem_cons_self _ _) hpos l2 hl2
        subst hl2l
        have hyy : c0.position.y = y := by rw [hpos]
        have hxx : c0.position.x = x := by rw [hpos]
        have hself : cellAt
            (jsSetCellInt g c0.position.y c0.position.x (JsVal.str l2))
            c0.position.y c0.position.x = JsVal.str l2 := by
          apply cellAt_jsSetCellInt_self
          · rw [hyy]
            exact h0y
          · rw [hxx]
            exact h0x
          · exact hg.2.2
        have hself' : cellAt
            (jsSetCellInt g c0.position.y c0.position.x (JsVal.str l2)) y x =
            JsVal.str l2 := by
          rw [← hyy, ← hxx]
          exact hself
        exact ih _ y x l2 h0y h0x hself'
          (fun c hcm => hothers c (List.mem_cons_of_mem _ hcm))
      · have hkeep : cellAt
            (jsSetCellInt g c0.position.y c0.position.x (JsVal.str l2)) y x =
            cellAt g y x := by
          apply cellAt_jsSetCellInt_ne _ _ _ _ _ _ h0y h0x
          intro hcond
          apply hpos
          have hx' : c0.position.x = x := hcond.2.symm
          have hy' : c0.position.y = y := hcond.1.symm
          cases hp : c0.position
          rw [hp] at hx' hy'
          simp only at hx' hy'
          rw [hx', hy']
        have hc' : cellAt
            (jsSetCellInt g c0.position.y c0.position.x (JsVal.str l2)) y x =
            JsVal.str l := by
          rw [hkeep]
          exact hc
        exact ih _ y x l h0y h0x hc'
          (fun c hcm => hothers c (List.mem_cons_of_mem _ hcm))

theorem ensureFirstNotes_cell (rows cols : Nat) :
    ∀ (clues : List Clue) (g : Grid), FirstNotesAgree clues →
      ∀ c ∈ clues, ∀ l, firstNoteLetterOf c = some l →
        0 ≤ c.position.x → c.position.x < (cols : Int) →
        0 ≤ c.position.y → c.position.y < (rows : Int) →
        c.position.y.toNat < g.length →
        cellAt (ensureFirstNotes g clues rows cols) c.position.y c.position.x =
          JsVal.str l := by
  intro clues
  induction clues with
  | nil =>
    intro g _ c hc
    cases hc
  | cons c0 rest ih =>
    intro g hagree c hc l hl h0x hxc h0y hyr hylen
    unfold ensureFirstNotes
    rw [List.foldl_cons]
    have hagree' : FirstNotesAgree rest := by
      intro c1 hc1 c2 hc2
      exact hagree c1 (List.mem_cons_of_mem _ hc1) c2 (List.mem_cons_of_mem _ hc2)
    rcases List.mem_cons.mp hc with rfl | hcr
    · have hjsome : (jsIndex g c.position.y).isSome = true := by
        rw [jsIndex_eq_getElem?, if_pos h0y, List.getElem?_eq_getElem hylen]
        rfl
      rw [placeFirstNote_writes rows cols g c l hl ⟨hyr, hxc, hjsome⟩]
      have hself : cellAt
          (jsSetCellInt g c.position.y c.position.x (JsVal.str l))
          c.position.y c.position.x = JsVal.str l :=
        cellAt_jsSetCellInt_self g c.position.y c.position.x _ h0y h0x hjsome
      apply foldl_preserves_letter rows cols rest _ c.position.y c.position.x l
        h0y h0x hself
      intro c2 hc2 hpos2 l2 hl2
      have := hagree c (List.mem_cons_self _ _) c2 (List.mem_cons_of_mem _ hc2)
        (by rw [hpos2])
      rcases this with hn | hn | hn
      · rw [hl] at hn
        cases hn
      · rw [hl2] at hn
        cases hn
      · rw [hl, hl2] at hn
        exact (Option.some_inj.mp hn).symm
    · apply ih (placeFirstNote rows cols g c0) hagree' c hcr l hl h0x hxc h0y hyr
      rw [placeFirstNote_length]
      exact hylen

/-- C10: after grid initialization with clues, after restoring saved
progress (ensureFirstNotes over an arbitrary saved grid — overwriting
whatever the cell held), and after an explicit clearGrid, the cell at the
start position of every clue with motif pitch data and an in-bounds
position holds the encoded grid symbol of that motif's first pitch; the
clue lists are assumed to agree on the first-note symbol of clues sharing
a start cell, the Entry shared-cell invariant of the data model. -/
theorem first_notes_prerevealed (rows cols : Nat) (clues : List Clue) (g : Grid)
    (p : EnrichedPuzzle) (current : Grid)
    (hagree : FirstNotesAgree clues) (hagreeP : FirstNotesAgree p.layout.result) :
    (∀ c ∈ clues, ∀ l, firstNoteLetterOf c = some l →
      0 ≤ c.position.x → c.position.x < (cols : Int) →
      0 ≤ c.position.y → c.position.y < (rows : Int) →
      c.position.y.toNat < g.length →
      cellAt (ensureFirstNotes g clues rows cols) c.position.y c.position.x =
        JsVal.str l) ∧
    (∀ c ∈ clues, ∀ l, firstNoteLetterOf c = some l →
      0 ≤ c.position.x → c.position.x < (cols : Int) →
      0 ≤ c.position.y → c.position.y < (rows : Int) →
      cellAt (initializeGrid rows cols (some clues)) c.position.y c.position.x =
        JsVal.str l) ∧
    (∀ c ∈ p.layout.result, ∀ l, firstNoteLetterOf c = some l →
      0 ≤ c.position.x → c.position.x < (p.layout.cols : Int) →
      0 ≤ c.position.y → c.position.y < (p.layout.rows : Int) →
      cellAt (clearGrid (some p) current) c.position.y c.position.x =
        JsVal.str l) := by
  have hinit : ∀ (rows2 cols2 : Nat) (clues2 : List Clue), FirstNotesAgree clues2 →
      ∀ c ∈ clues2, ∀ l, firstNoteLetterOf c = some l →
        0 ≤ c.position.x → c.position.x < (cols2 : Int) →
        0 ≤ c.position.y → c.position.y < (rows2 : Int) →
        cellAt (initializeGrid rows2 cols2 (some clues2)) c.position.y c.position.x =
          JsVal.str l := by
    intro rows2 cols2 clues2 hagree2 c hc l hl h0x hxc h0y hyr
    unfold initializeGrid
    have hlen : 0 < clues2.length := List.length_pos_of_mem hc
    dsimp only
    rw [if_pos hlen]
    apply ensureFirstNotes_cell rows2 cols2 clues2 _ hagree2 c hc l hl h0x hxc h0y hyr
    rw [List.length_replicate]
    omega
  refine ⟨fun c hc l hl h0x hxc h0y hyr hylen => ?ensure,
    hinit rows cols clues hagree,
    fun c hc l hl h0x hxc h0y hyr => ?clear⟩
  case ensure =>
    exact ensureFirstNotes_cell rows cols clues g hagree c hc l hl h0x hxc h0y hyr hylen
  case clear =>
    show cellAt (initializeGrid p.layout.rows p.layout.cols (some p.layout.result))
      c.position.y c.position.x = JsVal.str l
    exact hinit p.layout.rows p.layout.cols p.layout.result hagreeP c hc l hl
      h0x hxc h0y hyr

/-- Concrete motif for the C10 witness: first pitch G, encoded J. -/
def c10Motif : Motif :=
  { id := 1, pitch_sequence := "G4 G4", rhythm_sequence := none,
    interval_profile := "+0", length := 2, first_pitch := "G",
    last_pitch := "G", difficulty := 1, descriptor := some "w",
    source_id := 1, recognition_score := 9, checksum := "h" }

/-- Concrete clue for the C10 witness, starting at (0, 0). -/
def c10Clue : Clue :=
  { clue := "w", answer := "JJ", position := { x := 0, y := 0 },
    orientation := Orientation.across, motif_id := 1, motif := some c10Motif }

/-- Trivial puzzle for the unused clearGrid component of the C10 witness. -/
def c10Puzzle : EnrichedPuzzle :=
  { id := 1,
    layout := { rows := 1, cols := 2, table := [["J", "J"]], result := [c10Clue] },
    motif_ids := [1], difficulty := 1 }

/-- Witness for C10: initializing a 1x2 grid with the concrete clue
pre-reveals J at (0, 0), and so does clearGrid on the concrete puzzle. -/
theorem first_notes_prerevealed_witness :
    cellAt (initializeGrid 1 2 (some [c10Clue])) 0 0 = JsVal.str "J" ∧
    cellAt (clearGrid (some c10Puzzle) []) 0 0 = JsVal.str "J" := by
  constructor
  · exact (first_notes_prerevealed 1 2 [c10Clue] [] c10Puzzle []
      (by decide) (by decide)).2.1 c10Clue (List.mem_cons_self _ _) "J"
      (by decide) (by decide) (by decide) (by decide) (by decide)
  · exact (first_notes_prerevealed 1 2 [c10Clue] [] c10Puzzle []
      (by decide) (by decide)).2.2 c10Clue (List.mem_cons_self _ _) "J"
      (by decide) (by decide) (by decide) (by decide) (by decide)

end MusicCrossword
